import Mathlib

/-!
Verification of the zen-coding parsed-element core
(`src/javascript/elements/parsedElements.js`).

The JavaScript code is shallowly embedded: the mutable `ParsedElement`
objects become a pure inductive type, each mutating method becomes a
function returning the updated element, and the two registry factories
(`parsedElement`, `parsedSnippet`) become functions taking the resource
store as an explicit argument.  The `parent` back-pointer set by
`addChild` is not representable in a pure tree and is omitted; none of
the verified properties mention it.  The `_attr_hash` lookup table is
kept in sync with the `attributes` array by the source (every push into
the array also records the entry in the hash, and nothing ever removes
an entry), and the hash entry for a name is the very object stored in
the array, so mutating it through the hash mutates the array entry; the
embedding therefore models the pair as the single list `attributes`.
The source's existence test is the JavaScript `in` operator on a plain
object literal, which also finds the properties inherited from
`Object.prototype` (`toString`, `valueOf`, `hasOwnProperty`, ...): for
such a name on a fresh element the source takes the exists-branch, the
mutation lands on the inherited function object, and nothing is ever
pushed into the `attributes` array.  The embedding renders the test as
list membership OR membership in the fixed `Object.prototype` key set,
and the in-place mutation as an update of the first list entry carrying
the name — the identity when no such entry exists, exactly as the
array is untouched when the hash hit came from the prototype chain.
-/

namespace ZenCoding

/-- An attribute entry `{name: ..., value: ...}` as stored in the
`attributes` array of a parsed element. -/
structure Attr where
  name : String
  value : String
deriving DecidableEq, Repr

/-- Modelled from the spec: `caretPlaceholderToken()` of the Escaping
Utility is "a stable, reserved text value"; the utility module itself is
outside the fragment.  We fix it to the token zen-coding uses. -/
def getCaretPlaceholder : String := "\x7b%::zen-caret::%\x7d"

/-- Modelled from the spec: `escapeDelimiter(text, delimiterChar,
replacementToken)` of the Escaping Utility (called
`replaceUnescapedSymbol` by the fragment) "unescapes a backslash-escaped
occurrence of `delimiterChar` to a literal character, replaces unescaped
occurrences with `replacementToken`".  Character-list worker. -/
def replaceUnescapedChars (symbol : Char) (repl : List Char) : List Char → List Char
  | [] => []
  | '\\' :: d :: ds =>
    if d = symbol then d :: replaceUnescapedChars symbol repl ds
    else '\\' :: replaceUnescapedChars symbol repl (d :: ds)
  | c :: cs =>
    if c = symbol then repl ++ replaceUnescapedChars symbol repl cs
    else c :: replaceUnescapedChars symbol repl cs

/-- Modelled from the spec: `replaceUnescapedSymbol` on strings. -/
def replaceUnescapedSymbol (s : String) (symbol : Char) (repl : String) : String :=
  String.mk (replaceUnescapedChars symbol repl.data s.data)

/-- The delimiter-escaping transform applied by `addAttribute` and
`setContent`: `utils.replaceUnescapedSymbol(value, '|',
utils.getCaretPlaceholder())`. -/
def escAttrValue (v : String) : String :=
  replaceUnescapedSymbol v '|' getCaretPlaceholder

/-- Modelled from the spec: `escapeForLiteralInsertion` (called
`escapeText` by the fragment) "escapes structural characters that would
otherwise be misinterpreted as markup"; zen-coding escapes `\` and `$`
with a backslash. -/
def escapeTextChars : List Char → List Char
  | [] => []
  | c :: cs =>
    if c = '\\' ∨ c = '$' then '\\' :: c :: escapeTextChars cs
    else c :: escapeTextChars cs

/-- Modelled from the spec: `escapeText` on strings. -/
def escapeText (s : String) : String :=
  String.mk (escapeTextChars s.data)

/-- A Definition held by the Resource Store: an element definition
(name plus default attributes), a snippet (literal template text), or a
reference/alias to another definition's name. -/
inductive Resource where
  | element (name : String) (attributes : List Attr)
  | snippet (data : String)
  | reference (data : String)
deriving DecidableEq, Repr

/-- `resource.name` as JavaScript reads it: only element definitions
carry a name, the other kinds yield `undefined` (`none`). -/
def Resource.resName : Resource → Option String
  | .element n _ => some n
  | .snippet _ => none
  | .reference _ => none

/-- `resource.data` as JavaScript reads it: snippets and references
carry `data`, element definitions yield `undefined` (`none`). -/
def Resource.data : Resource → Option String
  | .element _ _ => none
  | .snippet d => some d
  | .reference d => some d

/-- `resource.attributes` as read by `copyAttributes(elem._abbr)`: only
element definitions carry attributes; the other kinds yield nothing
(the source's truthiness test skips them). -/
def Resource.resAttributes : Resource → List Attr
  | .element _ a => a
  | .snippet _ => []
  | .reference _ => []

/-- The parsed abbreviation-tree node handed to the factories.
`count = none` models an absent JavaScript `count`; `name = ""` models
a falsy name; `text = none` models absent text.  The field
`has_implict_name` keeps the source's spelling. -/
structure TreeNode where
  name : String
  count : Option Nat
  text : Option String
  is_repeating : Bool
  has_implict_name : Bool
  attributes : List Attr
deriving DecidableEq, Repr

/-- The Resource Store consumed by the factories:
`getAbbreviation(syntax, name)` and `getSnippet(syntax, name)`.  The
snippet lookup receives `elem.name`, which can be `undefined`, hence the
`Option String` argument. -/
structure ResourceStore where
  getAbbreviation : String → String → Option Resource
  getSnippet : String → Option String → String

/-- The polymorphic `resource` argument of a factory: a literal name
string, an actual Definition, or absent. -/
inductive ResourceArg where
  | named (s : String)
  | res (r : Resource)
  | absent
deriving Repr

/-- Defunctionalised deferred-content producers.  The source stores an
arbitrary function and `getContent` calls it with the element itself;
the producers exercised here are represented by this code type and
interpreted by `runProducer`. -/
inductive ContentProducer where
  | childrenLength
deriving DecidableEq, Repr

/-- The `_content` slot: a literal string or a deferred producer. -/
inductive Content where
  | literal (s : String)
  | deferred (p : ContentProducer)
deriving DecidableEq, Repr

/-- The argument of `setContent`: a string, a function, or anything
else (`undefined`, a number, ...), which the source ignores. -/
inductive ContentData where
  | str (s : String)
  | fn (p : ContentProducer)
  | other
deriving DecidableEq, Repr

/-- A JavaScript value returned by `getContent`: the literal branch
returns a string, a producer may return a number
(`self.children.length`). -/
inductive JSVal where
  | str (s : String)
  | num (n : Nat)
deriving DecidableEq, Repr

/-- The options bag, copied by the constructor and otherwise opaque. -/
abbrev Options := List (String × String)

/-- The ParsedElement object.  Fields in source order: `_abbr`, `name`,
`real_name`, `count`, `syntax` (here `syn`), `_content`,
`_paste_content`, `repeat_by_lines`, `is_repeating`,
`has_implicit_name`, `children`, `options`, then the lazily created
`attributes` array (empty until the first `addAttribute`) and the
`value` field set only by the snippet factory.  The `parent`
back-pointer is omitted (see the file comment). -/
inductive ParsedElement where
  | mk
      (abbr : Option Resource)
      (name : Option String)
      (real_name : String)
      (count : Nat)
      (syn : String)
      (content : Content)
      (paste_content : String)
      (repeat_by_lines : Bool)
      (is_repeating : Bool)
      (has_implicit_name : Bool)
      (children : List ParsedElement)
      (options : Options)
      (attributes : List Attr)
      (value : Option String)

def ParsedElement.abbr : ParsedElement → Option Resource
  | .mk a _ _ _ _ _ _ _ _ _ _ _ _ _ => a

def ParsedElement.name : ParsedElement → Option String
  | .mk _ n _ _ _ _ _ _ _ _ _ _ _ _ => n

def ParsedElement.real_name : ParsedElement → String
  | .mk _ _ rn _ _ _ _ _ _ _ _ _ _ _ => rn

def ParsedElement.count : ParsedElement → Nat
  | .mk _ _ _ c _ _ _ _ _ _ _ _ _ _ => c

def ParsedElement.syn : ParsedElement → String
  | .mk _ _ _ _ s _ _ _ _ _ _ _ _ _ => s

def ParsedElement.content : ParsedElement → Content
  | .mk _ _ _ _ _ ct _ _ _ _ _ _ _ _ => ct

def ParsedElement.paste_content : ParsedElement → String
  | .mk _ _ _ _ _ _ p _ _ _ _ _ _ _ => p

def ParsedElement.repeat_by_lines : ParsedElement → Bool
  | .mk _ _ _ _ _ _ _ rb _ _ _ _ _ _ => rb

def ParsedElement.is_repeating : ParsedElement → Bool
  | .mk _ _ _ _ _ _ _ _ ir _ _ _ _ _ => ir

def ParsedElement.has_implicit_name : ParsedElement → Bool
  | .mk _ _ _ _ _ _ _ _ _ hi _ _ _ _ => hi

def ParsedElement.children : ParsedElement → List ParsedElement
  | .mk _ _ _ _ _ _ _ _ _ _ ch _ _ _ => ch

def ParsedElement.options : ParsedElement → Options
  | .mk _ _ _ _ _ _ _ _ _ _ _ o _ _ => o

def ParsedElement.attributes : ParsedElement → List Attr
  | .mk _ _ _ _ _ _ _ _ _ _ _ _ at' _ => at'

def ParsedElement.value : ParsedElement → Option String
  | .mk _ _ _ _ _ _ _ _ _ _ _ _ _ v => v

/-- Field update for `children`. -/
def ParsedElement.withChildren : ParsedElement → List ParsedElement → ParsedElement
  | .mk a n rn c s ct p rb ir hi _ o at' v, ch => .mk a n rn c s ct p rb ir hi ch o at' v

/-- Field update for `attributes`. -/
def ParsedElement.withAttributes : ParsedElement → List Attr → ParsedElement
  | .mk a n rn c s ct p rb ir hi ch o _ v, at' => .mk a n rn c s ct p rb ir hi ch o at' v

/-- Field update for `_content`. -/
def ParsedElement.withContent : ParsedElement → Content → ParsedElement
  | .mk a n rn c s _ p rb ir hi ch o at' v, ct => .mk a n rn c s ct p rb ir hi ch o at' v

/-- Field update for `_paste_content`. -/
def ParsedElement.withPaste : ParsedElement → String → ParsedElement
  | .mk a n rn c s ct _ rb ir hi ch o at' v, p => .mk a n rn c s ct p rb ir hi ch o at' v

/-- Field update for `value`. -/
def ParsedElement.withValue : ParsedElement → Option String → ParsedElement
  | .mk a n rn c s ct p rb ir hi ch o at' _, v => .mk a n rn c s ct p rb ir hi ch o at' v

/-- `addChild(elem)`: appends `elem` to `children` (the source also
sets `elem.parent = this`; the parent pointer is not modelled). -/
def ParsedElement.addChild (e elem : ParsedElement) : ParsedElement :=
  e.withChildren (e.children ++ [elem])

/-- `hasChildren()`. -/
def ParsedElement.hasChildren (e : ParsedElement) : Bool :=
  !e.children.isEmpty

/-- In-place mutation of the attribute object reached through
`_attr_hash[name]`: updates the first (and, by the source's invariant,
only) entry of the list whose name is `n`.  When no entry carries the
name — the `in` test hit an `Object.prototype` property — the list is
returned unchanged, matching the source, where the mutation then lands
on the inherited object and not on the array. -/
def updateAttr : List Attr → String → (Attr → Attr) → List Attr
  | [], _, _ => []
  | a :: rest, n, f =>
    if a.name = n then f a :: rest else a :: updateAttr rest n f

/-- The property names the JavaScript `in` operator finds on a fresh
object literal `\x7b\x7d` through `Object.prototype`. -/
def objectProtoKeys : List String :=
  ["constructor", "hasOwnProperty", "isPrototypeOf", "propertyIsEnumerable",
   "toLocaleString", "toString", "valueOf", "__proto__", "__defineGetter__",
   "__defineSetter__", "__lookupGetter__", "__lookupSetter__"]

/-- The source's `name in this._attr_hash` test: true for a name with
an own entry (every pushed attribute also records its entry in the
hash) and for every property inherited from `Object.prototype`. -/
def inAttrHash (l : List Attr) (n : String) : Bool :=
  (l.any fun a => a.name = n) || objectProtoKeys.contains n

/-- `addAttribute(name, value)`: escape the value, then either mutate
the entry found by the `in` test (concatenating with a space for
`class`, replacing otherwise) or push a fresh `{name, value}` entry.
When the `in` test succeeded only through the prototype chain, the
update touches no list entry and the attributes array stays as it
was. -/
def ParsedElement.addAttribute (e : ParsedElement) (n v : String) : ParsedElement :=
  let ev := escAttrValue v
  if inAttrHash e.attributes n then
    e.withAttributes (updateAttr e.attributes n (fun a =>
      if n = "class" then
        { a with value := a.value ++ (if a.value ≠ "" then " " else "") ++ ev }
      else
        { a with value := ev }))
  else
    e.withAttributes (e.attributes ++ [⟨n, ev⟩])

/-- `copyAttributes(node)`: `addAttribute(attr.name, attr.value)` for
each entry of the source's attribute list, in order.  The caller passes
the list (an absent JavaScript `attributes` becomes `[]`, which the
fold treats identically to the source's truthiness guard). -/
def ParsedElement.copyAttributes (e : ParsedElement) (attrs : List Attr) : ParsedElement :=
  attrs.foldl (fun acc a => acc.addAttribute a.name a.value) e

/-- `setContent(data)`: a string is delimiter-escaped and stored as
literal content, a function is stored unchanged as deferred content,
anything else falls through both branches and leaves `_content`
untouched. -/
def ParsedElement.setContent (e : ParsedElement) (data : ContentData) : ParsedElement :=
  match data with
  | .str s => e.withContent (Content.literal (escAttrValue s))
  | .fn p => e.withContent (Content.deferred p)
  | .other => e

/-- Interpretation of a defunctionalised producer applied, as the
source does, to the element itself at call time. -/
def runProducer : ContentProducer → ParsedElement → JSVal
  | .childrenLength, e => JSVal.num e.children.length

/-- `getContent()`: a deferred producer is invoked now with the element
as argument (never cached); literal content is returned as stored
(`'' || ''` is `''`, so the empty literal returns the empty string). -/
def ParsedElement.getContent (e : ParsedElement) : JSVal :=
  match e.content with
  | .deferred p => runProducer p e
  | .literal s => JSVal.str s

/-- `setPasteContent(val)`: stores `escapeText(val)`. -/
def ParsedElement.setPasteContent (e : ParsedElement) (val : String) : ParsedElement :=
  e.withPaste (escapeText val)

/-- `getPasteContent()`. -/
def ParsedElement.getPasteContent (e : ParsedElement) : String :=
  e.paste_content

lemma mem_of_getLast?_eq_some {α : Type} {l : List α} {x : α}
    (h : l.getLast? = some x) : x ∈ l := by
  induction l with
  | nil => simp [List.getLast?] at h
  | cons a as ih =>
    cases as with
    | nil => simp_all
    | cons b bs =>
      rw [List.getLast?_cons_cons] at h
      exact List.mem_cons_of_mem a (ih h)

lemma sizeOf_children_lt (e : ParsedElement) : sizeOf e.children < sizeOf e := by
  cases e
  simp [ParsedElement.children]
  omega

/-- The `while` loop of `findDeepestChild`: repeatedly step to the last
child until there are no children. -/
def findDeepestLoop (e : ParsedElement) : ParsedElement :=
  match h : e.children.getLast? with
  | some c => findDeepestLoop c
  | none => e
termination_by sizeOf e
decreasing_by
  exact Nat.lt_trans (List.sizeOf_lt_of_mem (mem_of_getLast?_eq_some h))
    (sizeOf_children_lt e)

/-- `findDeepestChild()`: `null` when there are no children, otherwise
the element reached by the loop. -/
def ParsedElement.findDeepestChild (e : ParsedElement) : Option ParsedElement :=
  if e.children.isEmpty then none
  else some (findDeepestLoop e)

/-- The `ParsedElement` constructor function: fields are computed from
the node and the matched resource exactly as in the source
(`name = _abbr ? _abbr.name : node.name`, `count = node.count || 1`,
`is_repeating = node.count > 1`, ...), the attribute array starts empty
and `value` unset, and `setContent(node.text)` runs last. -/
def ParsedElement.make (node : TreeNode) (syn : String) (resource : Option Resource)
    (options : Options) : ParsedElement :=
  let base : ParsedElement := ParsedElement.mk
    resource
    (match resource with
     | some r => r.resName
     | none => some node.name)
    node.name
    (match node.count with
     | some k => if k = 0 then 1 else k
     | none => 1)
    syn
    (Content.literal "")
    ""
    node.is_repeating
    (match node.count with
     | some k => decide (1 < k)
     | none => false)
    node.has_implict_name
    []
    options
    []
    none
  base.setContent
    (match node.text with
     | some s => ContentData.str s
     | none => ContentData.other)

/-- The `parsedElement` registry factory: a string resource becomes an
ad-hoc element definition (modelled from the spec: `elems.create`
lives outside the fragment), an absent resource triggers a store lookup
when the node has a truthy name, a reference triggers exactly one more
lookup on its `data`, then the element is built and the definition's
attributes (if any) are copied before the node's own. -/
def parsedElement (store : ResourceStore) (node : TreeNode) (syn : String)
    (resource : ResourceArg) (options : Options) : ParsedElement :=
  let r1 : Option Resource :=
    match resource with
    | .named s => some (Resource.element s [])
    | .res r => some r
    | .absent => none
  let r2 : Option Resource :=
    match r1 with
    | none => if node.name = "" then none else store.getAbbreviation syn node.name
    | some r => some r
  let r3 : Option Resource :=
    match r2 with
    | some (Resource.reference d) => store.getAbbreviation syn d
    | other => other
  let elem := ParsedElement.make node syn r3 options
  let elem :=
    match r3 with
    | some r => elem.copyAttributes r.resAttributes
    | none => elem
  elem.copyAttributes node.attributes

/-- The `parsedSnippet` registry factory: a string resource becomes an
ad-hoc snippet definition (modelled from the spec: `elems.create` lives
outside the fragment); the element is built, the snippet text
(`resource.data`, else a store lookup on `elem.name`) is
delimiter-escaped into `value`, the synthetic `id` and `class`
attributes are set to the caret placeholder, and the node's own
attributes are copied last. -/
def parsedSnippet (store : ResourceStore) (node : TreeNode) (syn : String)
    (resource : ResourceArg) (options : Options) : ParsedElement :=
  let r1 : Option Resource :=
    match resource with
    | .named s => some (Resource.snippet s)
    | .res r => some r
    | .absent => none
  let elem := ParsedElement.make node syn r1 options
  let data : Option String :=
    match r1 with
    | some r => r.data
    | none => some (store.getSnippet syn elem.name)
  let elem := elem.withValue (data.map (fun s => replaceUnescapedSymbol s '|' getCaretPlaceholder))
  let elem := elem.addAttribute "id" getCaretPlaceholder
  let elem := elem.addAttribute "class" getCaretPlaceholder
  elem.copyAttributes node.attributes

/-- Observer used by the theorems: the value of the attribute named
`n`, read off the `attributes` array the way the downstream serializer
does (first entry with that name). -/
def ParsedElement.getAttrValue (e : ParsedElement) (n : String) : Option String :=
  (e.attributes.find? (fun a => a.name = n)).map Attr.value

/-! Projection lemmas for the field updates. -/

@[simp] lemma withChildren_children (e : ParsedElement) (l : List ParsedElement) :
    (e.withChildren l).children = l := by cases e; rfl

@[simp] lemma withChildren_attributes (e : ParsedElement) (l : List ParsedElement) :
    (e.withChildren l).attributes = e.attributes := by cases e; rfl

@[simp] lemma withChildren_count (e : ParsedElement) (l : List ParsedElement) :
    (e.withChildren l).count = e.count := by cases e; rfl

@[simp] lemma withChildren_is_repeating (e : ParsedElement) (l : List ParsedElement) :
    (e.withChildren l).is_repeating = e.is_repeating := by cases e; rfl

@[simp] lemma withChildren_content (e : ParsedElement) (l : List ParsedElement) :
    (e.withChildren l).content = e.content := by cases e; rfl

@[simp] lemma withAttributes_attributes (e : ParsedElement) (l : List Attr) :
    (e.withAttributes l).attributes = l := by cases e; rfl

@[simp] lemma withAttributes_children (e : ParsedElement) (l : List Attr) :
    (e.withAttributes l).children = e.children := by cases e; rfl

@[simp] lemma withAttributes_count (e : ParsedElement) (l : List Attr) :
    (e.withAttributes l).count = e.count := by cases e; rfl

@[simp] lemma withAttributes_is_repeating (e : ParsedElement) (l : List Attr) :
    (e.withAttributes l).is_repeating = e.is_repeating := by cases e; rfl

@[simp] lemma withAttributes_content (e : ParsedElement) (l : List Attr) :
    (e.withAttributes l).content = e.content := by cases e; rfl

@[simp] lemma withAttributes_abbr (e : ParsedElement) (l : List Attr) :
    (e.withAttributes l).abbr = e.abbr := by cases e; rfl

@[simp] lemma withAttributes_name (e : ParsedElement) (l : List Attr) :
    (e.withAttributes l).name = e.name := by cases e; rfl

@[simp] lemma withContent_content (e : ParsedElement) (c : Content) :
    (e.withContent c).content = c := by cases e; rfl

@[simp] lemma withContent_attributes (e : ParsedElement) (c : Content) :
    (e.withContent c).attributes = e.attributes := by cases e; rfl

@[simp] lemma withContent_children (e : ParsedElement) (c : Content) :
    (e.withContent c).children = e.children := by cases e; rfl

@[simp] lemma withContent_count (e : ParsedElement) (c : Content) :
    (e.withContent c).count = e.count := by cases e; rfl

@[simp] lemma withContent_is_repeating (e : ParsedElement) (c : Content) :
    (e.withContent c).is_repeating = e.is_repeating := by cases e; rfl

@[simp] lemma withContent_abbr (e : ParsedElement) (c : Content) :
    (e.withContent c).abbr = e.abbr := by cases e; rfl

@[simp] lemma withContent_name (e : ParsedElement) (c : Content) :
    (e.withContent c).name = e.name := by cases e; rfl

@[simp] lemma withPaste_count (e : ParsedElement) (s : String) :
    (e.withPaste s).count = e.count := by cases e; rfl

@[simp] lemma withPaste_is_repeating (e : ParsedElement) (s : String) :
    (e.withPaste s).is_repeating = e.is_repeating := by cases e; rfl

@[simp] lemma withValue_attributes (e : ParsedElement) (v : Option String) :
    (e.withValue v).attributes = e.attributes := by cases e; rfl

@[simp] lemma withValue_abbr (e : ParsedElement) (v : Option String) :
    (e.withValue v).abbr = e.abbr := by cases e; rfl

@[simp] lemma withValue_name (e : ParsedElement) (v : Option String) :
    (e.withValue v).name = e.name := by cases e; rfl

@[simp] lemma withValue_count (e : ParsedElement) (v : Option String) :
    (e.withValue v).count = e.count := by cases e; rfl

@[simp] lemma withValue_is_repeating (e : ParsedElement) (v : Option String) :
    (e.withValue v).is_repeating = e.is_repeating := by cases e; rfl

/-! The effect of each operation on each field, stated once and reused
by the claim theorems. -/

/-- The attribute-level semantics of `addAttribute`. -/
def addAttrList (l : List Attr) (n v : String) : List Attr :=
  let ev := escAttrValue v
  if inAttrHash l n then
    updateAttr l n (fun a =>
      if n = "class" then
        { a with value := a.value ++ (if a.value ≠ "" then " " else "") ++ ev }
      else
        { a with value := ev })
  else l ++ [⟨n, ev⟩]

@[simp] lemma addAttribute_attributes (e : ParsedElement) (n v : String) :
    (e.addAttribute n v).attributes = addAttrList e.attributes n v := by
  unfold ParsedElement.addAttribute addAttrList
  by_cases h : inAttrHash e.attributes n = true <;> simp [h]

@[simp] lemma addAttribute_count (e : ParsedElement) (n v : String) :
    (e.addAttribute n v).count = e.count := by
  unfold ParsedElement.addAttribute
  by_cases h : inAttrHash e.attributes n = true <;> simp [h]

@[simp] lemma addAttribute_is_repeating (e : ParsedElement) (n v : String) :
    (e.addAttribute n v).is_repeating = e.is_repeating := by
  unfold ParsedElement.addAttribute
  by_cases h : inAttrHash e.attributes n = true <;> simp [h]

@[simp] lemma addAttribute_abbr (e : ParsedElement) (n v : String) :
    (e.addAttribute n v).abbr = e.abbr := by
  unfold ParsedElement.addAttribute
  by_cases h : inAttrHash e.attributes n = true <;> simp [h]

@[simp] lemma addAttribute_name (e : ParsedElement) (n v : String) :
    (e.addAttribute n v).name = e.name := by
  unfold ParsedElement.addAttribute
  by_cases h : inAttrHash e.attributes n = true <;> simp [h]

@[simp] lemma addAttribute_children (e : ParsedElement) (n v : String) :
    (e.addAttribute n v).children = e.children := by
  unfold ParsedElement.addAttribute
  by_cases h : inAttrHash e.attributes n = true <;> simp [h]

/-- The attribute-level semantics of `copyAttributes`. -/
def copyAttrList (l0 : List Attr) (attrs : List Attr) : List Attr :=
  attrs.foldl (fun acc a => addAttrList acc a.name a.value) l0

@[simp] lemma copyAttributes_attributes (e : ParsedElement) (attrs : List Attr) :
    (e.copyAttributes attrs).attributes = copyAttrList e.attributes attrs := by
  induction attrs generalizing e with
  | nil => rfl
  | cons a rest ih =>
    simp [ParsedElement.copyAttributes, copyAttrList] at ih ⊢
    rw [ih, addAttribute_attributes]

@[simp] lemma copyAttributes_count (e : ParsedElement) (attrs : List Attr) :
    (e.copyAttributes attrs).count = e.count := by
  induction attrs generalizing e with
  | nil => rfl
  | cons a rest ih =>
    simp [ParsedElement.copyAttributes] at ih ⊢
    rw [ih, addAttribute_count]

@[simp] lemma copyAttributes_is_repeating (e : ParsedElement) (attrs : List Attr) :
    (e.copyAttributes attrs).is_repeating = e.is_repeating := by
  induction attrs generalizing e with
  | nil => rfl
  | cons a rest ih =>
    simp [ParsedElement.copyAttributes] at ih ⊢
    rw [ih, addAttribute_is_repeating]

@[simp] lemma copyAttributes_abbr (e : ParsedElement) (attrs : List Attr) :
    (e.copyAttributes attrs).abbr = e.abbr := by
  induction attrs generalizing e with
  | nil => rfl
  | cons a rest ih =>
    simp [ParsedElement.copyAttributes] at ih ⊢
    rw [ih, addAttribute_abbr]

@[simp] lemma copyAttributes_name (e : ParsedElement) (attrs : List Attr) :
    (e.copyAttributes attrs).name = e.name := by
  induction attrs generalizing e with
  | nil => rfl
  | cons a rest ih =>
    simp [ParsedElement.copyAttributes] at ih ⊢
    rw [ih, addAttribute_name]

@[simp] lemma setContent_attributes (e : ParsedElement) (d : ContentData) :
    (e.setContent d).attributes = e.attributes := by
  cases d <;> simp [ParsedElement.setContent]

@[simp] lemma setContent_children (e : ParsedElement) (d : ContentData) :
    (e.setContent d).children = e.children := by
  cases d <;> simp [ParsedElement.setContent]

@[simp] lemma setContent_count (e : ParsedElement) (d : ContentData) :
    (e.setContent d).count = e.count := by
  cases d <;> simp [ParsedElement.setContent]

@[simp] lemma setContent_is_repeating (e : ParsedElement) (d : ContentData) :
    (e.setContent d).is_repeating = e.is_repeating := by
  cases d <;> simp [ParsedElement.setContent]

@[simp] lemma setContent_abbr (e : ParsedElement) (d : ContentData) :
    (e.setContent d).abbr = e.abbr := by
  cases d <;> simp [ParsedElement.setContent]

@[simp] lemma setContent_name (e : ParsedElement) (d : ContentData) :
    (e.setContent d).name = e.name := by
  cases d <;> simp [ParsedElement.setContent]

@[simp] lemma addChild_children (e c : ParsedElement) :
    (e.addChild c).children = e.children ++ [c] := by
  simp [ParsedElement.addChild]

@[simp] lemma addChild_count (e c : ParsedElement) :
    (e.addChild c).count = e.count := by
  simp [ParsedElement.addChild]

@[simp] lemma addChild_is_repeating (e c : ParsedElement) :
    (e.addChild c).is_repeating = e.is_repeating := by
  simp [ParsedElement.addChild]

@[simp] lemma addChild_content (e c : ParsedElement) :
    (e.addChild c).content = e.content := by
  simp [ParsedElement.addChild]

@[simp] lemma setPasteContent_count (e : ParsedElement) (s : String) :
    (e.setPasteContent s).count = e.count := by
  simp [ParsedElement.setPasteContent]

@[simp] lemma setPasteContent_is_repeating (e : ParsedElement) (s : String) :
    (e.setPasteContent s).is_repeating = e.is_repeating := by
  simp [ParsedElement.setPasteContent]

/-! Fields of a freshly constructed element. -/

@[simp] lemma make_attributes (node : TreeNode) (syn : String) (r : Option Resource)
    (o : Options) : (ParsedElement.make node syn r o).attributes = [] := by
  unfold ParsedElement.make
  rw [setContent_attributes]
  rfl

@[simp] lemma make_children (node : TreeNode) (syn : String) (r : Option Resource)
    (o : Options) : (ParsedElement.make node syn r o).children = [] := by
  unfold ParsedElement.make
  rw [setContent_children]
  rfl

@[simp] lemma make_abbr (node : TreeNode) (syn : String) (r : Option Resource)
    (o : Options) : (ParsedElement.make node syn r o).abbr = r := by
  unfold ParsedElement.make
  rw [setContent_abbr]
  rfl

@[simp] lemma make_name (node : TreeNode) (syn : String) (r : Option Resource)
    (o : Options) :
    (ParsedElement.make node syn r o).name =
      (match r with
       | some res => res.resName
       | none => some node.name) := by
  unfold ParsedElement.make
  rw [setContent_name]
  rfl

@[simp] lemma make_count (node : TreeNode) (syn : String) (r : Option Resource)
    (o : Options) :
    (ParsedElement.make node syn r o).count =
      (match node.count with
       | some k => if k = 0 then 1 else k
       | none => 1) := by
  unfold ParsedElement.make
  rw [setContent_count]
  rfl

@[simp] lemma make_is_repeating (node : TreeNode) (syn : String) (r : Option Resource)
    (o : Options) :
    (ParsedElement.make node syn r o).is_repeating =
      (match node.count with
       | some k => decide (1 < k)
       | none => false) := by
  unfold ParsedElement.make
  rw [setContent_is_repeating]
  rfl

lemma make_content (node : TreeNode) (syn : String) (r : Option Resource)
    (o : Options) :
    (ParsedElement.make node syn r o).content =
      (match node.text with
       | some s => Content.literal (escAttrValue s)
       | none => Content.literal "") := by
  unfold ParsedElement.make
  cases node.text with
  | none => rfl
  | some s => simp [ParsedElement.setContent]

/-! List-level lemmas about `updateAttr`, `find?` and `any` on
attribute lists. -/

lemma any_name_eq_false {l : List Attr} {n : String}
    (h : ∀ a ∈ l, a.name ≠ n) : (l.any fun a => a.name = n) = false := by
  simp only [List.any_eq_false, decide_eq_true_eq]
  exact h

lemma any_name_append_sing {l : List Attr} {x : Attr} {n : String} (hx : x.name = n) :
    ((l ++ [x]).any fun a => a.name = n) = true := by
  simp [List.any_eq_true]
  exact Or.inr hx

lemma updateAttr_append_sing {l : List Attr} {n : String} {f : Attr → Attr} {x : Attr}
    (h : ∀ a ∈ l, a.name ≠ n) (hx : x.name = n) :
    updateAttr (l ++ [x]) n f = l ++ [f x] := by
  induction l with
  | nil => simp [updateAttr, hx]
  | cons a as ih =>
    have ha : a.name ≠ n := h a (List.mem_cons_self a as)
    have ih' := ih (fun b hb => h b (List.mem_cons_of_mem a hb))
    simp [updateAttr, ha, ih']

lemma find?_name_append_sing {l : List Attr} {x : Attr} {n : String}
    (h : ∀ a ∈ l, a.name ≠ n) (hx : x.name = n) :
    ((l ++ [x]).find? fun a => a.name = n) = some x := by
  induction l with
  | nil => simp [List.find?, hx]
  | cons a as ih =>
    have ha : a.name ≠ n := h a (List.mem_cons_self a as)
    have ih' := ih (fun b hb => h b (List.mem_cons_of_mem a hb))
    simp [List.find?, ha, ih']

lemma updateAttr_map_name {l : List Attr} {n : String} {f : Attr → Attr}
    (hf : ∀ a, (f a).name = a.name) :
    (updateAttr l n f).map Attr.name = l.map Attr.name := by
  induction l with
  | nil => rfl
  | cons a as ih =>
    by_cases ha : a.name = n
    · simp [updateAttr, ha, hf]
    · simp [updateAttr, ha, ih]

lemma updateAttr_getElem?_of_ne {l : List Attr} {n : String} {f : Attr → Attr} :
    ∀ (i : Nat) (a : Attr), l[i]? = some a → a.name ≠ n →
      (updateAttr l n f)[i]? = some a := by
  induction l with
  | nil => intro i a hi; simp at hi
  | cons b bs ih =>
    intro i a hi hne
    by_cases hb : b.name = n
    · cases i with
      | zero =>
        simp at hi
        exact absurd (hi ▸ hb) hne
      | succ j =>
        simpa [updateAttr, hb] using hi
    · cases i with
      | zero =>
        simpa [updateAttr, hb] using hi
      | succ j =>
        simp only [updateAttr, if_neg hb, List.getElem?_cons_succ] at hi ⊢
        exact ih j a hi hne

lemma find?_updateAttr {l : List Attr} {n : String} {f : Attr → Attr}
    (hf : ∀ a, (f a).name = a.name) :
    ((updateAttr l n f).find? fun a => a.name = n) =
      (l.find? fun a => a.name = n).map f := by
  induction l with
  | nil => rfl
  | cons a as ih =>
    by_cases ha : a.name = n
    · have hfa : (f a).name = n := by rw [hf a, ha]
      simp [updateAttr, ha, List.find?, hfa]
    · have hfa : ¬ (f a).name = n := by rw [hf a]; exact ha
      simp [updateAttr, ha, List.find?, ih]

lemma updateAttr_id_of_not_mem {l : List Attr} {n : String} {f : Attr → Attr}
    (h : ∀ a ∈ l, a.name ≠ n) : updateAttr l n f = l := by
  induction l with
  | nil => rfl
  | cons a as ih =>
    have ha : a.name ≠ n := h a (List.mem_cons_self a as)
    have ih' := ih (fun b hb => h b (List.mem_cons_of_mem a hb))
    simp [updateAttr, ha, ih']

lemma inAttrHash_of_any {l : List Attr} {n : String}
    (h : (l.any fun a => a.name = n) = true) : inAttrHash l n = true := by
  unfold inAttrHash
  rw [h]
  rfl

lemma inAttrHash_eq_false {l : List Attr} {n : String}
    (h : ∀ a ∈ l, a.name ≠ n) (hp : objectProtoKeys.contains n = false) :
    inAttrHash l n = false := by
  unfold inAttrHash
  rw [any_name_eq_false h, hp]
  rfl

lemma addAttrList_fresh {l : List Attr} {n v : String}
    (h : ∀ a ∈ l, a.name ≠ n) (hp : objectProtoKeys.contains n = false) :
    addAttrList l n v = l ++ [⟨n, escAttrValue v⟩] := by
  unfold addAttrList
  rw [inAttrHash_eq_false h hp]
  simp

lemma addAttrList_proto_noop {l : List Attr} {n v : String}
    (h : ∀ a ∈ l, a.name ≠ n) (hp : objectProtoKeys.contains n = true) :
    addAttrList l n v = l := by
  unfold addAttrList
  have : inAttrHash l n = true := by
    unfold inAttrHash
    rw [hp]
    simp
  rw [this]
  simp only [if_true]
  exact updateAttr_id_of_not_mem h

lemma addAttrList_class_append {l : List Attr} {old v : String}
    (h : ∀ a ∈ l, a.name ≠ "class") :
    addAttrList (l ++ [⟨"class", old⟩]) "class" v =
      l ++ [⟨"class", old ++ (if old ≠ "" then " " else "") ++ escAttrValue v⟩] := by
  unfold addAttrList
  rw [inAttrHash_of_any (any_name_append_sing rfl)]
  simp only [if_pos rfl]
  rw [updateAttr_append_sing h rfl]
  simp

/-! Concrete objects used by witnesses and counterexamples. -/

/-- A minimal abbreviation node: name `div`, no count, no text, no
attributes. -/
def sampleNode : TreeNode :=
  ⟨"div", none, none, false, false, []⟩

/-- A freshly constructed element with no attributes, as produced by
the constructor on `sampleNode` with no matched resource. -/
def sampleElem : ParsedElement :=
  ParsedElement.make sampleNode "html" none []

/-! Claim theorems. -/

/-- Claim C1, amended: on an element with no prior `class` attribute,
`addAttribute("class","a")` then `addAttribute("class","b")` yields a
single class attribute with value `"a b"` (insertion order, one space,
no leading space); but a further `addAttribute("class","")` does not
leave the value unchanged — the source appends the separator space even
for an empty contribution, producing `"a b "`. -/
theorem claimC1_class_append_trailing_space (e : ParsedElement)
    (h : ∀ a ∈ e.attributes, a.name ≠ "class") :
    ((e.addAttribute "class" "a").addAttribute "class" "b").getAttrValue "class"
        = some "a b" ∧
    (((e.addAttribute "class" "a").addAttribute "class" "b").addAttribute
        "class" "").getAttrValue "class" = some "a b " := by
  have ea : escAttrValue "a" = "a" := by decide
  have h1 : (e.addAttribute "class" "a").attributes
      = e.attributes ++ [⟨"class", "a"⟩] := by
    rw [addAttribute_attributes, addAttrList_fresh h (by decide), ea]
  have h2 : ((e.addAttribute "class" "a").addAttribute "class" "b").attributes
      = e.attributes ++ [⟨"class", "a b"⟩] := by
    rw [addAttribute_attributes, h1, addAttrList_class_append h]
    have hv : ("a" ++ (if ("a" : String) ≠ "" then " " else "") ++ escAttrValue "b")
        = "a b" := by decide
    rw [hv]
  have h3 : (((e.addAttribute "class" "a").addAttribute "class" "b").addAttribute
      "class" "").attributes = e.attributes ++ [⟨"class", "a b "⟩] := by
    rw [addAttribute_attributes, h2, addAttrList_class_append h]
    have hv : ("a b" ++ (if ("a b" : String) ≠ "" then " " else "") ++ escAttrValue "")
        = "a b " := by decide
    rw [hv]
  constructor
  · unfold ParsedElement.getAttrValue
    rw [h2, find?_name_append_sing h rfl]
    rfl
  · unfold ParsedElement.getAttrValue
    rw [h3, find?_name_append_sing h rfl]
    rfl

/-- Claim C1 counterexample: on a freshly constructed element the third
call `addAttribute("class","")` does not leave the class value `"a b"`
(it produces `"a b "`), so the claim as stated is false. -/
theorem claimC1_counterexample :
    ¬ ((((sampleElem.addAttribute "class" "a").addAttribute "class" "b").addAttribute
        "class" "").getAttrValue "class" = some "a b") := by decide

/-- Claim C1 witness: the amended statement evaluated on a concrete
element. -/
theorem claimC1_witness :
    ((sampleElem.addAttribute "class" "a").addAttribute "class" "b").getAttrValue
        "class" = some "a b" ∧
    (((sampleElem.addAttribute "class" "a").addAttribute "class" "b").addAttribute
        "class" "").getAttrValue "class" = some "a b " :=
  claimC1_class_append_trailing_space sampleElem (by decide)

/-- Claim C2: for a name other than `class` already present (as exactly
one entry), `addAttribute` replaces the value with the escaped input
and the number of entries with that name stays one. -/
theorem claimC2_last_write_wins (e : ParsedElement) (n v : String)
    (hn : n ≠ "class")
    (hone : (e.attributes.countP fun a => a.name = n) = 1) :
    (e.addAttribute n v).getAttrValue n = some (escAttrValue v) ∧
    ((e.addAttribute n v).attributes.countP fun a => a.name = n) = 1 := by
  have hex : ∃ a ∈ e.attributes, (a.name = n) := by
    have hpos : 0 < e.attributes.countP fun a => a.name = n := by omega
    simpa using List.countP_pos_iff.mp hpos
  have hany : (e.attributes.any fun a => a.name = n) = true := by
    simpa using hex
  have hattrs : (e.addAttribute n v).attributes
      = updateAttr e.attributes n (fun a => { a with value := escAttrValue v }) := by
    rw [addAttribute_attributes]
    unfold addAttrList
    rw [inAttrHash_of_any hany]
    simp [hn]
  have hfpres : ∀ a : Attr, (({ a with value := escAttrValue v } : Attr)).name = a.name :=
    fun a => rfl
  constructor
  · obtain ⟨x, hxmem, hxn⟩ := hex
    obtain ⟨y, hy⟩ : ∃ y, (e.attributes.find? fun a => a.name = n) = some y := by
      have : (e.attributes.find? fun a => a.name = n).isSome := by
        rw [List.find?_isSome]
        exact ⟨x, hxmem, by simpa using hxn⟩
      exact Option.isSome_iff_exists.mp this
    unfold ParsedElement.getAttrValue
    rw [hattrs, find?_updateAttr hfpres, hy]
    rfl
  · rw [hattrs]
    have hnames : (updateAttr e.attributes n
        (fun a => { a with value := escAttrValue v })).map Attr.name
        = e.attributes.map Attr.name := updateAttr_map_name hfpres
    have hcount : ∀ l : List Attr,
        (l.countP fun a => a.name = n)
          = ((l.map Attr.name).countP fun s => s = n) := by
      intro l
      rw [List.countP_map]
      rfl
    rw [hcount, hnames, ← hcount, hone]

/-- Claim C2 witness: `addAttribute("id","x")` then
`addAttribute("id","y")` on a concrete element leaves a single `id`
attribute whose value is `"y"`. -/
theorem claimC2_witness :
    ((sampleElem.addAttribute "id" "x").addAttribute "id" "y").getAttrValue "id"
        = some (escAttrValue "y") ∧
    (((sampleElem.addAttribute "id" "x").addAttribute "id" "y").attributes.countP
        fun a => a.name = "id") = 1 :=
  claimC2_last_write_wins (sampleElem.addAttribute "id" "x") "id" "y"
    (by decide) (by decide)

/-- Claim C5: the stored attribute value is the delimiter-escaping
transform of the input; an escaped pipe is stored as a literal pipe
with the backslash stripped, an unescaped pipe becomes the caret
placeholder token.  A value is stored under a name only when the
source's `name in this._attr_hash` test fails, i.e. when no attribute
with that name exists and the name is not an `Object.prototype`
property (for the latter the source stores nothing in the attributes
array at all, see claim C10); under that genuine freshness condition
the stored value is exactly the transform. -/
theorem claimC5_delimiter_escaping (e : ParsedElement) (n v : String)
    (h : ∀ a ∈ e.attributes, a.name ≠ n)
    (hp : objectProtoKeys.contains n = false) :
    (e.addAttribute n v).getAttrValue n = some (escAttrValue v) ∧
    escAttrValue "a\\|b" = "a|b" ∧
    escAttrValue "a|b" = "a" ++ getCaretPlaceholder ++ "b" := by
  refine ⟨?_, by decide, by decide⟩
  unfold ParsedElement.getAttrValue
  rw [addAttribute_attributes, addAttrList_fresh h hp, find?_name_append_sing h rfl]
  rfl

/-- Claim C5 witness: storing `"a|b"` under a fresh name on a concrete
element. -/
theorem claimC5_witness :
    (sampleElem.addAttribute "title" "a|b").getAttrValue "title"
        = some (escAttrValue "a|b") ∧
    escAttrValue "a\\|b" = "a|b" ∧
    escAttrValue "a|b" = "a" ++ getCaretPlaceholder ++ "b" :=
  claimC5_delimiter_escaping sampleElem "title" "a|b" (by decide) (by decide)

/-- Claim C6: a deferred producer is re-invoked on every `getContent`
call with the element itself, so a producer returning
`self.children.length` observes `0` before an `addChild` and `1` after
it; literal content is returned as stored; unset content (a node with
no text) yields the empty string. -/
theorem claimC6_deferred_content (e c : ParsedElement) (s : String) (node : TreeNode)
    (syn : String) (r : Option Resource) (o : Options) :
    (e.content = Content.deferred ContentProducer.childrenLength → e.children = [] →
      e.getContent = JSVal.num 0 ∧ (e.addChild c).getContent = JSVal.num 1) ∧
    (e.content = Content.literal s → e.getContent = JSVal.str s) ∧
    (node.text = none → (ParsedElement.make node syn r o).getContent = JSVal.str "") := by
  refine ⟨?_, ?_, ?_⟩
  · intro hcont hch
    constructor
    · unfold ParsedElement.getContent
      rw [hcont]
      simp [runProducer, hch]
    · unfold ParsedElement.getContent
      rw [addChild_content, hcont]
      simp [runProducer, hch]
  · intro hcont
    unfold ParsedElement.getContent
    rw [hcont]
  · intro ht
    unfold ParsedElement.getContent
    rw [make_content, ht]

/-- Claim C6 witness: the producer observes `0` then `1` around a
concrete `addChild`; a literal and an unset content on concrete
elements. -/
theorem claimC6_witness :
    (sampleElem.setContent (ContentData.fn ContentProducer.childrenLength)).getContent
        = JSVal.num 0 ∧
    ((sampleElem.setContent (ContentData.fn ContentProducer.childrenLength)).addChild
        sampleElem).getContent = JSVal.num 1 ∧
    (sampleElem.setContent (ContentData.str "hi")).getContent
        = JSVal.str (escAttrValue "hi") ∧
    (ParsedElement.make sampleNode "html" none []).getContent = JSVal.str "" :=
  ⟨((claimC6_deferred_content
      (sampleElem.setContent (ContentData.fn ContentProducer.childrenLength))
      sampleElem "" sampleNode "html" none []).1 rfl rfl).1,
   ((claimC6_deferred_content
      (sampleElem.setContent (ContentData.fn ContentProducer.childrenLength))
      sampleElem "" sampleNode "html" none []).1 rfl rfl).2,
   (claimC6_deferred_content (sampleElem.setContent (ContentData.str "hi"))
      sampleElem (escAttrValue "hi") sampleNode "html" none []).2.1 rfl,
   (claimC6_deferred_content sampleElem sampleElem "" sampleNode "html" none
      []).2.2 rfl⟩

lemma findDeepestLoop_step {e c : ParsedElement}
    (h : e.children.getLast? = some c) :
    findDeepestLoop e = findDeepestLoop c := by
  rw [findDeepestLoop]
  split
  · next c' h' =>
    rw [h] at h'
    cases h'
    rfl
  · next h' =>
    rw [h] at h'
    cases h'

lemma findDeepestLoop_leaf {e : ParsedElement} (h : e.children = []) :
    findDeepestLoop e = e := by
  rw [findDeepestLoop]
  split
  · next c' h' =>
    rw [h] at h'
    cases h'
  · rfl

/-- Claim C7: `findDeepestChild` returns `null` on a childless element;
otherwise it repeatedly follows the last — not the first — entry of
`children`.  `root`, `a` and `b` may already hold arbitrary earlier
children: since `addChild` appends, the chain members are the last
entries at every level, and the traversal reaches `c` regardless of
those earlier siblings (a first-entry traversal would instead descend
into `root`'s pre-existing children whenever it has any).  In
particular, for a chain root→A→B→C of previously childless elements,
`findDeepestChild` on root returns C. -/
theorem claimC7_find_deepest (root a b c e : ParsedElement)
    (hc : c.children = []) (he : e.children = []) :
    (root.addChild (a.addChild (b.addChild c))).findDeepestChild = some c ∧
    e.findDeepestChild = none := by
  constructor
  · have g1 : (root.addChild (a.addChild (b.addChild c))).children.getLast?
        = some (a.addChild (b.addChild c)) := by
      rw [addChild_children]
      exact List.getLast?_concat root.children
    have g2 : (a.addChild (b.addChild c)).children.getLast? = some (b.addChild c) := by
      rw [addChild_children]
      exact List.getLast?_concat a.children
    have g3 : (b.addChild c).children.getLast? = some c := by
      rw [addChild_children]
      exact List.getLast?_concat b.children
    have hne : ¬ ((root.addChild (a.addChild (b.addChild c))).children.isEmpty
        = true) := by
      rw [addChild_children]
      simp
    unfold ParsedElement.findDeepestChild
    rw [if_neg hne, findDeepestLoop_step g1, findDeepestLoop_step g2,
      findDeepestLoop_step g3, findDeepestLoop_leaf hc]
  · unfold ParsedElement.findDeepestChild
    rw [he]
    rfl

/-- A childless leaf distinguishable from `sampleElem` by its `id`
attribute. -/
def leafElem : ParsedElement :=
  sampleElem.addAttribute "id" "leaf"

/-- Claim C7 witness: the null case, and a chain hung below a root that
already has an earlier (first) child — the traversal returns the leaf
of the appended chain, not that earlier child. -/
theorem claimC7_witness :
    ((sampleElem.addChild sampleElem).addChild (sampleElem.addChild
        (sampleElem.addChild leafElem))).findDeepestChild = some leafElem ∧
    sampleElem.findDeepestChild = none :=
  claimC7_find_deepest (sampleElem.addChild sampleElem) sampleElem sampleElem
    leafElem sampleElem rfl rfl

/-- The §3 invariant `count ≥ 1 ∧ (isRepeating ⇔ count > 1)`. -/
def countInvariant (e : ParsedElement) : Prop :=
  1 ≤ e.count ∧ (e.is_repeating = true ↔ 1 < e.count)

/-- Claim C8: the count invariant holds at construction for any node
whose count is a positive integer or absent, and is preserved by
`addChild`, `addAttribute`, `copyAttributes`, `setContent` and
`setPasteContent`, none of which touch `count` or `is_repeating`. -/
theorem claimC8_count_invariant (node : TreeNode) (syn : String)
    (r : Option Resource) (o : Options) (e c : ParsedElement) (n v s : String)
    (attrs : List Attr) (d : ContentData)
    (h : node.count = none ∨ ∃ k, node.count = some k ∧ 1 ≤ k) :
    countInvariant (ParsedElement.make node syn r o) ∧
    (countInvariant e →
      countInvariant (e.addChild c) ∧ countInvariant (e.addAttribute n v) ∧
      countInvariant (e.copyAttributes attrs) ∧ countInvariant (e.setContent d) ∧
      countInvariant (e.setPasteContent s)) := by
  constructor
  · unfold countInvariant
    rw [make_count, make_is_repeating]
    rcases h with h | ⟨k, hk, h1⟩
    · rw [h]
      simp
    · have hk0 : k ≠ 0 := by omega
      rw [hk]
      simp [hk0]
      omega
  · intro he
    simp only [countInvariant, addChild_count, addChild_is_repeating,
      addAttribute_count, addAttribute_is_repeating, copyAttributes_count,
      copyAttributes_is_repeating, setContent_count, setContent_is_repeating,
      setPasteContent_count, setPasteContent_is_repeating] at he ⊢
    exact ⟨he, he, he, he, he⟩

/-- Claim C8 witness: the invariant at a concrete construction (absent
count) and after each operation on a concrete element. -/
theorem claimC8_witness :
    countInvariant (ParsedElement.make sampleNode "html" none []) ∧
    (countInvariant (sampleElem.addChild sampleElem) ∧
     countInvariant (sampleElem.addAttribute "id" "x") ∧
     countInvariant (sampleElem.copyAttributes []) ∧
     countInvariant (sampleElem.setContent ContentData.other) ∧
     countInvariant (sampleElem.setPasteContent "p")) :=
  ⟨(claimC8_count_invariant sampleNode "html" none [] sampleElem sampleElem
      "id" "x" "p" [] ContentData.other (Or.inl rfl)).1,
   (claimC8_count_invariant sampleNode "html" none [] sampleElem sampleElem
      "id" "x" "p" [] ContentData.other (Or.inl rfl)).2
     (by constructor <;> decide)⟩

/-- Claim C9: `setContent` with data that is neither a string nor a
function is a no-op: the stored content is left unchanged, an element
built from a node with no text keeps the initial empty literal content,
and `setContent(undefined)` after `setContent("x")` leaves `getContent`
returning the escaped `"x"`. -/
theorem claimC9_setContent_noop (e : ParsedElement) (node : TreeNode) (syn : String)
    (r : Option Resource) (o : Options) (h : node.text = none) :
    e.setContent ContentData.other = e ∧
    (ParsedElement.make node syn r o).content = Content.literal "" ∧
    ((e.setContent (ContentData.str "x")).setContent ContentData.other).getContent
        = JSVal.str (escAttrValue "x") := by
  refine ⟨rfl, ?_, ?_⟩
  · rw [make_content, h]
  · show (e.setContent (ContentData.str "x")).getContent = JSVal.str (escAttrValue "x")
    unfold ParsedElement.getContent
    simp [ParsedElement.setContent]

/-- Claim C9 witness: the no-op and the kept content on concrete
elements. -/
theorem claimC9_witness :
    sampleElem.setContent ContentData.other = sampleElem ∧
    (ParsedElement.make sampleNode "html" none []).content = Content.literal "" ∧
    ((sampleElem.setContent (ContentData.str "x")).setContent
        ContentData.other).getContent = JSVal.str (escAttrValue "x") :=
  claimC9_setContent_noop sampleElem sampleNode "html" none [] rfl

lemma parsedSnippet_attributes (store : ResourceStore) (node : TreeNode)
    (syn : String) (resource : ResourceArg) (o : Options) :
    (parsedSnippet store node syn resource o).attributes
      = copyAttrList
          (addAttrList (addAttrList [] "id" getCaretPlaceholder) "class"
            getCaretPlaceholder)
          node.attributes := by
  unfold parsedSnippet
  cases resource <;>
    simp [copyAttributes_attributes, addAttribute_attributes, withValue_attributes,
      make_attributes]

/-- Claim C3: the snippet factory sets the synthetic `id` and `class`
attributes to the caret placeholder before the node's own attributes
are copied, so a node with `class="foo"` ends with class
`caretPlaceholderToken() + " foo"` and the placeholder `id`, while a
node specifying `id` overrides the placeholder `id`. -/
theorem claimC3_snippet_synthetic_attrs (store : ResourceStore)
    (node1 node2 : TreeNode) (syn : String) (resource1 resource2 : ResourceArg)
    (o : Options)
    (h1 : node1.attributes = [⟨"class", "foo"⟩])
    (h2 : node2.attributes = [⟨"id", "bar"⟩]) :
    (parsedSnippet store node1 syn resource1 o).getAttrValue "class"
        = some (getCaretPlaceholder ++ " foo") ∧
    (parsedSnippet store node1 syn resource1 o).getAttrValue "id"
        = some getCaretPlaceholder ∧
    (parsedSnippet store node2 syn resource2 o).getAttrValue "id"
        = some "bar" := by
  unfold ParsedElement.getAttrValue
  rw [parsedSnippet_attributes, parsedSnippet_attributes, h1, h2]
  refine ⟨?_, ?_, ?_⟩ <;> decide

/-- A resource store with no abbreviations and empty snippet texts. -/
def emptyStore : ResourceStore :=
  ⟨fun _ _ => none, fun _ _ => ""⟩

/-- A node carrying only `class="foo"`. -/
def fooNode : TreeNode :=
  ⟨"a", none, none, false, false, [⟨"class", "foo"⟩]⟩

/-- A node carrying only `id="bar"`. -/
def barNode : TreeNode :=
  ⟨"a", none, none, false, false, [⟨"id", "bar"⟩]⟩

/-- Claim C3 witness: the snippet factory on concrete nodes. -/
theorem claimC3_witness :
    (parsedSnippet emptyStore fooNode "html" ResourceArg.absent []).getAttrValue
        "class" = some (getCaretPlaceholder ++ " foo") ∧
    (parsedSnippet emptyStore fooNode "html" ResourceArg.absent []).getAttrValue
        "id" = some getCaretPlaceholder ∧
    (parsedSnippet emptyStore barNode "html" ResourceArg.absent []).getAttrValue
        "id" = some "bar" :=
  claimC3_snippet_synthetic_attrs emptyStore fooNode barNode "html"
    ResourceArg.absent ResourceArg.absent [] rfl rfl

/-- Claim C4: when the store lookup for the node's name yields a
Reference, the factory performs exactly one further lookup on
`(syntax, reference.data)` — the element's matched definition is
whatever that single second lookup returns, with no further chain
following — and when that second lookup yields an element definition,
the resulting element's `name` is the referenced definition's name, not
the node's own. -/
theorem claimC4_one_hop_reference (store : ResourceStore) (node : TreeNode)
    (syn : String) (o : Options) (d : String)
    (hname : node.name ≠ "")
    (href : store.getAbbreviation syn node.name = some (Resource.reference d)) :
    (parsedElement store node syn ResourceArg.absent o).abbr
        = store.getAbbreviation syn d ∧
    (∀ (m : String) (attrs2 : List Attr),
      store.getAbbreviation syn d = some (Resource.element m attrs2) →
      (parsedElement store node syn ResourceArg.absent o).name = some m) := by
  have hstep : parsedElement store node syn ResourceArg.absent o
      = (match store.getAbbreviation syn d with
         | some r => (ParsedElement.make node syn (store.getAbbreviation syn d)
             o).copyAttributes r.resAttributes
         | none => ParsedElement.make node syn (store.getAbbreviation syn d)
             o).copyAttributes node.attributes := by
    simp only [parsedElement]
    rw [if_neg hname, href]
  constructor
  · rw [hstep]
    cases hr3 : store.getAbbreviation syn d with
    | none => simp
    | some r => simp
  · intro m attrs2 hdef
    rw [hstep, hdef]
    simp [Resource.resName]

/-- A store where `"a"` is an alias for `"b"` and `"b"` is an element
definition named `"strong"`. -/
def refStore : ResourceStore :=
  ⟨fun _ n =>
    if n = "a" then some (Resource.reference "b")
    else if n = "b" then some (Resource.element "strong" []) else none,
   fun _ _ => ""⟩

/-- A node named `"a"` with nothing else. -/
def aNode : TreeNode :=
  ⟨"a", none, none, false, false, []⟩

/-- Claim C4 witness: the alias `"a" → "b"` resolved against a
concrete store. -/
theorem claimC4_witness :
    (parsedElement refStore aNode "html" ResourceArg.absent []).abbr
        = refStore.getAbbreviation "html" "b" ∧
    (parsedElement refStore aNode "html" ResourceArg.absent []).name
        = some "strong" :=
  ⟨(claimC4_one_hop_reference refStore aNode "html" [] "b" (by decide)
      (by decide)).1,
   (claimC4_one_hop_reference refStore aNode "html" [] "b" (by decide)
      (by decide)).2 "strong" [] (by decide)⟩

lemma addAttrList_fun_name (n v : String) (a : Attr) :
    ((if n = "class" then
        { a with value := a.value ++ (if a.value ≠ "" then " " else "")
            ++ escAttrValue v }
      else { a with value := escAttrValue v }) : Attr).name = a.name := by
  by_cases hcl : n = "class" <;> simp [hcl]

lemma addAttrList_map_name_of_any {l : List Attr} {n : String} (v : String)
    (hany : (l.any fun a => a.name = n) = true) :
    (addAttrList l n v).map Attr.name = l.map Attr.name := by
  unfold addAttrList
  rw [inAttrHash_of_any hany]
  simp only [if_true]
  exact updateAttr_map_name (addAttrList_fun_name n v)

lemma not_mem_names_of_any_false {l : List Attr} {n : String}
    (hany : (l.any fun a => a.name = n) = false) : n ∉ l.map Attr.name := by
  intro hmem
  obtain ⟨a, ha, hn⟩ := List.mem_map.mp hmem
  have := List.any_eq_false.mp hany a ha
  simp [hn] at this

lemma names_addAttrList (l : List Attr) (n v : String) :
    ∃ r0, (addAttrList l n v).map Attr.name = l.map Attr.name ++ r0 := by
  by_cases hany : (l.any fun a => a.name = n) = true
  · exact ⟨[], by rw [addAttrList_map_name_of_any v hany]; simp⟩
  · have hfalse : (l.any fun a => a.name = n) = false := Bool.eq_false_iff.mpr hany
    have hni : ∀ a ∈ l, a.name ≠ n := fun a ha => by
      simpa using List.any_eq_false.mp hfalse a ha
    by_cases hp : objectProtoKeys.contains n = true
    · exact ⟨[], by rw [addAttrList_proto_noop hni hp]; simp⟩
    · exact ⟨[n], by
        rw [addAttrList_fresh hni (Bool.eq_false_iff.mpr hp)]
        simp⟩

lemma nodup_names_addAttrList {l : List Attr} (n v : String)
    (h : (l.map Attr.name).Nodup) : ((addAttrList l n v).map Attr.name).Nodup := by
  by_cases hany : (l.any fun a => a.name = n) = true
  · rw [addAttrList_map_name_of_any v hany]
    exact h
  · have hfalse : (l.any fun a => a.name = n) = false := Bool.eq_false_iff.mpr hany
    have hni : ∀ a ∈ l, a.name ≠ n := fun a ha => by
      simpa using List.any_eq_false.mp hfalse a ha
    by_cases hp : objectProtoKeys.contains n = true
    · rw [addAttrList_proto_noop hni hp]
      exact h
    · rw [addAttrList_fresh hni (Bool.eq_false_iff.mpr hp)]
      simp only [List.map_append, List.map_cons, List.map_nil]
      rw [List.nodup_append]
      exact ⟨h, List.nodup_singleton n,
        by simpa using fun hmem => not_mem_names_of_any_false hfalse hmem⟩

lemma nodup_names_copyAttrList {l : List Attr} (ops : List Attr)
    (h : (l.map Attr.name).Nodup) :
    ((copyAttrList l ops).map Attr.name).Nodup := by
  induction ops generalizing l with
  | nil => exact h
  | cons a rest ih =>
    exact ih (nodup_names_addAttrList a.name a.value h)

lemma names_copyAttrList (l : List Attr) (ops : List Attr) :
    ∃ rest, (copyAttrList l ops).map Attr.name = l.map Attr.name ++ rest := by
  induction ops generalizing l with
  | nil => exact ⟨[], by simp [copyAttrList]⟩
  | cons a rest ih =>
    obtain ⟨r1, hr1⟩ := ih (addAttrList l a.name a.value)
    obtain ⟨r0, hr0⟩ := names_addAttrList l a.name a.value
    exact ⟨r0 ++ r1, by
      show (copyAttrList (addAttrList l a.name a.value) rest).map Attr.name = _
      rw [hr1, hr0, List.append_assoc]⟩

/-- Claim C10, amended: `addAttribute` on a name present in the
attributes list changes only that entry's value, keeping length and
order of the sequence; a call with a new name appends exactly one entry
at the end — unless the name is an `Object.prototype` property
(`toString`, `valueOf`, ...), where the source's `in` test hits the
prototype chain, the update branch runs against the inherited object
and the attributes sequence is left unchanged; name uniqueness and the
position of every already-present name are preserved by any
`addAttribute`/`copyAttributes` sequence. -/
theorem claimC10_attribute_positions (e : ParsedElement) (n v : String)
    (ops : List Attr) :
    ((e.attributes.any fun a => a.name = n) = true →
      ((e.addAttribute n v).attributes.map Attr.name
          = e.attributes.map Attr.name ∧
       ∀ (i : Nat) (a : Attr), e.attributes[i]? = some a → a.name ≠ n →
         (e.addAttribute n v).attributes[i]? = some a)) ∧
    ((e.attributes.any fun a => a.name = n) = false →
      objectProtoKeys.contains n = false →
      (e.addAttribute n v).attributes = e.attributes ++ [⟨n, escAttrValue v⟩]) ∧
    ((e.attributes.any fun a => a.name = n) = false →
      objectProtoKeys.contains n = true →
      (e.addAttribute n v).attributes = e.attributes) ∧
    ((e.attributes.map Attr.name).Nodup →
      ((e.addAttribute n v).attributes.map Attr.name).Nodup ∧
      ((e.copyAttributes ops).attributes.map Attr.name).Nodup) ∧
    (∃ rest, (e.copyAttributes ops).attributes.map Attr.name
        = e.attributes.map Attr.name ++ rest) := by
  refine ⟨?_, ?_, ?_, ?_, ?_⟩
  · intro hany
    constructor
    · rw [addAttribute_attributes]
      exact addAttrList_map_name_of_any v hany
    · intro i a hi hne
      rw [addAttribute_attributes]
      unfold addAttrList
      rw [inAttrHash_of_any hany]
      simp only [if_true]
      exact updateAttr_getElem?_of_ne i a hi hne
  · intro hany hp
    rw [addAttribute_attributes]
    exact addAttrList_fresh
      (fun a ha => by simpa using List.any_eq_false.mp hany a ha) hp
  · intro hany hp
    rw [addAttribute_attributes]
    exact addAttrList_proto_noop
      (fun a ha => by simpa using List.any_eq_false.mp hany a ha) hp
  · intro hnd
    constructor
    · rw [addAttribute_attributes]
      exact nodup_names_addAttrList n v hnd
    · rw [copyAttributes_attributes]
      exact nodup_names_copyAttrList ops hnd
  · rw [copyAttributes_attributes]
    exact names_copyAttrList e.attributes ops

/-- Claim C10 counterexample: `"toString"` is a new name on a fresh
element (no attribute with that name exists), yet `addAttribute` does
not append an entry — the attribute count does not grow by one, so the
claim's fresh-name append clause is false as stated. -/
theorem claimC10_counterexample :
    ¬ ((sampleElem.addAttribute "toString" "x").attributes.length
        = sampleElem.attributes.length + 1) := by decide

/-- Claim C10 witness: the five parts evaluated on concrete elements,
including the prototype-chain no-op at `"toString"`. -/
theorem claimC10_witness :
    ((((sampleElem.addAttribute "id" "x").addAttribute "class" "c").addAttribute
        "id" "y").attributes.map Attr.name
      = ((sampleElem.addAttribute "id" "x").addAttribute "class" "c").attributes.map
          Attr.name ∧
     (((sampleElem.addAttribute "id" "x").addAttribute "class" "c").addAttribute
        "id" "y").attributes[1]? = some ⟨"class", "c"⟩) ∧
    ((sampleElem.addAttribute "title" "t").attributes
      = sampleElem.attributes ++ [⟨"title", escAttrValue "t"⟩]) ∧
    ((sampleElem.addAttribute "toString" "x").attributes
      = sampleElem.attributes) ∧
    ((((sampleElem.addAttribute "id" "x").addAttribute "class" "c").addAttribute
        "id" "y").attributes.map Attr.name).Nodup ∧
    (∃ rest,
      (((sampleElem.addAttribute "id" "x").addAttribute "class" "c").copyAttributes
          [⟨"id", "z"⟩, ⟨"alt", "a"⟩]).attributes.map Attr.name
        = ((sampleElem.addAttribute "id" "x").addAttribute "class"
            "c").attributes.map Attr.name ++ rest) := by
  refine ⟨⟨?_, ?_⟩, ?_, ?_, ?_, ?_⟩
  · exact ((claimC10_attribute_positions
      ((sampleElem.addAttribute "id" "x").addAttribute "class" "c") "id" "y"
      []).1 (by decide)).1
  · exact ((claimC10_attribute_positions
      ((sampleElem.addAttribute "id" "x").addAttribute "class" "c") "id" "y"
      []).1 (by decide)).2 1 ⟨"class", "c"⟩ (by decide) (by decide)
  · exact (claimC10_attribute_positions sampleElem "title" "t" []).2.1
      (by decide) (by decide)
  · exact (claimC10_attribute_positions sampleElem "toString" "x" []).2.2.1
      (by decide) (by decide)
  · exact ((claimC10_attribute_positions
      ((sampleElem.addAttribute "id" "x").addAttribute "class" "c") "id" "y"
      []).2.2.2.1 (by decide)).1
  · exact (claimC10_attribute_positions
      ((sampleElem.addAttribute "id" "x").addAttribute "class" "c") "id" "y"
      [⟨"id", "z"⟩, ⟨"alt", "a"⟩]).2.2.2.2

end ZenCoding
